import Mathlib

/-!
Verification development for the gemini-proxy repository (Go).

The Go sources are shallowly embedded as executable Lean definitions:

* `src/util/redis/redis.go`  — namespace `RedisGo` (plain-string records)
* `src/unnamed/part_000`     — namespace `Part000` (JSON records with
  `key`/`proxy` fields), plus the shared helper functions that are
  byte-identical in both files (`splitAndTrim`, `splitAPIKeys`,
  `getAPIKeysFromEnv`, `getFallbackAPIKey`).
* `src/handler/handler.go`   — `buildUpstreamURL`, `sendToGemini`,
  `handlerGetAPIKey`, `maskAPIKey`.
* `src/api/index.go`         — `doStdResponse`, `doGeminiResponse`,
  `mainHandleError`, `Response`.

Modelling conventions:
* Go strings are byte slices; we model them as Lean `String`s and treat one
  `Char` per byte.  All string manipulation is implemented over `List Char`
  with structural recursion so that concrete instances reduce in the kernel.
  Theorems about slicing/length are therefore stated at character level and
  their witnesses use ASCII inputs, where the two notions coincide.
* External-library behaviour (net/url query parsing and encoding,
  encoding/json, fmt.Fprintf, net/http's implicit 200 status) is embedded at
  the granularity the program observes, following the documented semantics of
  those libraries for the byte-level inputs the program feeds them.
* `os.ExpandEnv` (used by `cleanAPIKeyString`) is threaded through as an
  uninterpreted expansion function `ex : String → String`; it is the identity
  on strings containing no dollar reference, and no claim depends on it.
* The Redis backing store is modelled as the stored list plus per-operation
  failure flags (`llenErr`, `lindexErr`); `RPush` failures are not modelled
  (no claim concerns them).  The round-robin cursor `currentPos` is threaded
  explicitly; it is a `Nat` since the Go variable starts at 0 and is only
  ever assigned results of `%` with positive modulus.
-/

/-- Split a character list on a separator character, mirroring
`strings.Split` for a one-byte separator: `"a,b" ↦ ["a","b"]`,
`"" ↦ [""]`, `"," ↦ ["",""]`. -/
def splitListOn (sep : Char) : List Char → List (List Char)
  | [] => [[]]
  | c :: rest =>
    if c = sep then [] :: splitListOn sep rest
    else
      match splitListOn sep rest with
      | [] => [[c]]
      | h :: t => (c :: h) :: t

/-- Drop leading whitespace, as in `strings.TrimSpace`'s left side. -/
def dropLeadWs (l : List Char) : List Char := l.dropWhile Char.isWhitespace

/-- Trim whitespace from both ends of a character list (`strings.TrimSpace`). -/
def trimList (l : List Char) : List Char :=
  ((dropLeadWs l).reverse.dropWhile Char.isWhitespace).reverse

/-- Cut a character list at the first occurrence of `c` (`strings.Cut`):
returns the part before and the part after; if `c` is absent the second
component is empty, matching Go's `Cut` whose `after` is `""` when the
separator is not found. -/
def cutList (c : Char) : List Char → List Char × List Char
  | [] => ([], [])
  | x :: xs =>
    if x = c then ([], xs)
    else
      let p := cutList c xs
      (x :: p.1, p.2)

/-- Intercalate a separator character between character-list pieces,
inverse-ish of `splitListOn`. -/
def intercalateList (sep : Char) : List (List Char) → List Char
  | [] => []
  | [x] => x
  | x :: y :: t => x ++ sep :: intercalateList sep (y :: t)

/-- Lower-case hexadecimal digit for a value below 16. -/
def hexDigitLower (n : Nat) : Char :=
  if n < 10 then Char.ofNat (48 + n) else Char.ofNat (87 + n)

/-- Upper-case hexadecimal digit for a value below 16 (Go's URL escaper
uses upper case). -/
def hexDigitUpper (n : Nat) : Char :=
  if n < 10 then Char.ofNat (48 + n) else Char.ofNat (55 + n)

/-- Decide whether a character is an ASCII hexadecimal digit. -/
def isHexChar (c : Char) : Bool :=
  (48 ≤ c.toNat && c.toNat ≤ 57) || (97 ≤ c.toNat && c.toNat ≤ 102)
    || (65 ≤ c.toNat && c.toNat ≤ 70)

/-- Numeric value of an ASCII hexadecimal digit. -/
def hexCharVal (c : Char) : Nat :=
  if c.toNat ≤ 57 then c.toNat - 48
  else if c.toNat ≤ 70 then c.toNat - 55
  else c.toNat - 87

/-- Decimal digits of a natural number, fuel-based so it reduces in the
kernel. -/
def natDigitsAux : Nat → Nat → List Char
  | 0, _ => []
  | fuel + 1, n =>
    if n < 10 then [hexDigitLower n]
    else natDigitsAux fuel (n / 10) ++ [hexDigitLower (n % 10)]

/-- Decimal rendering of a natural number. -/
def natToStr (n : Nat) : String := ⟨natDigitsAux (n + 1) n⟩

/-- Decimal rendering of an integer (for the JSON `code` field). -/
def intToStr (i : Int) : String :=
  if i < 0 then "-" ++ natToStr i.natAbs else natToStr i.natAbs

/-- Byte-wise lexicographic strict order on character lists, as
`sort.Strings` compares Go strings (ASCII inputs). -/
def listStrLt : List Char → List Char → Bool
  | [], [] => false
  | [], _ :: _ => true
  | _ :: _, [] => false
  | a :: as, b :: bs => if a = b then listStrLt as bs else decide (a < b)

/-!
Query-string model, following net/url as used by `SendToGemini`:
`url.Values` is a map from key to list of values; `ParseQuery` splits the
raw query on `&`, skips empty pieces and pieces containing `;`, cuts each
piece at the first `=`, and unescapes key and value (skipping the pair when
unescaping fails); `Values.Del` removes a key; `Values.Set` replaces a
key's values with a single value; `Values.Encode` sorts keys and emits
`escape(k)=escape(v)` pieces joined by `&`.
-/

/-- The map carried by `url.Values`, as an association list with one entry
per key (parsing merges duplicate keys into one entry, appending values). -/
abbrev Values := List (String × List String)

/-- Append one value under a key (`v[key] = append(v[key], value)`). -/
def values_add (v : Values) (k val : String) : Values :=
  match v with
  | [] => [(k, [val])]
  | e :: rest =>
    if e.1 == k then (e.1, e.2 ++ [val]) :: rest
    else e :: values_add rest k val

/-- Remove every entry for a key (`Values.Del`). -/
def values_del (v : Values) (k : String) : Values :=
  v.filter (fun e => !(e.1 == k))

/-- Replace a key's values with a single value (`Values.Set`,
`v[key] = []string\x7bvalue\x7d`). -/
def values_set (v : Values) (k val : String) : Values :=
  match v with
  | [] => [(k, [val])]
  | e :: rest =>
    if e.1 == k then (e.1, [val]) :: rest
    else e :: values_set rest k val

/-- Characters left unescaped by `url.QueryEscape`: ASCII alphanumerics and
`-`, `_`, `.`, `~`. -/
def isUnreservedQueryChar (c : Char) : Bool :=
  (48 ≤ c.toNat && c.toNat ≤ 57) || (65 ≤ c.toNat && c.toNat ≤ 90)
    || (97 ≤ c.toNat && c.toNat ≤ 122)
    || c = '-' || c = '_' || c = '.' || c = '~'

/-- Escape one byte as `url.QueryEscape` does (space becomes `+`, other
reserved bytes become `%XX` with upper-case hex).  Faithful for code points
below 128; the program-level theorems restrict inputs to ASCII. -/
def queryEscapeChar (c : Char) : List Char :=
  if isUnreservedQueryChar c then [c]
  else if c = ' ' then ['+']
  else ['%', hexDigitUpper (c.toNat % 256 / 16), hexDigitUpper (c.toNat % 16)]

/-- Escape a string for use in a query component (`url.QueryEscape`). -/
def queryEscape (s : String) : String :=
  ⟨(s.data.map queryEscapeChar).flatten⟩

/-- Unescape a query component (`url.QueryUnescape`): `+` becomes space,
`%` must be followed by two hex digits, failures yield `none`. -/
def unescapeList : List Char → Option (List Char)
  | [] => some []
  | '%' :: a :: b :: rest =>
    if isHexChar a && isHexChar b then
      (unescapeList rest).map (fun t => Char.ofNat (16 * hexCharVal a + hexCharVal b) :: t)
    else none
  | '%' :: _ => none
  | '+' :: rest => (unescapeList rest).map (fun t => ' ' :: t)
  | c :: rest => (unescapeList rest).map (fun t => c :: t)

/-- Unescape a query component at string level. -/
def queryUnescape (s : String) : Option String :=
  (unescapeList s.data).map (fun l => ⟨l⟩)

/-- Parse a raw query string (`url.ParseQuery`, whose error the program
discards via `parse.Query()`): split on `&`, skip empty pieces and pieces
containing `;`, cut at the first `=`, unescape both halves, and skip the
pair when unescaping fails. -/
def parseQuery (raw : String) : Values :=
  (splitListOn '&' raw.data).foldl
    (fun m piece =>
      if piece = [] then m
      else if piece.contains ';' then m
      else
        let p := cutList '=' piece
        match queryUnescape ⟨p.1⟩, queryUnescape ⟨p.2⟩ with
        | some k, some v => values_add m k v
        | _, _ => m)
    []

/-- Insert one entry into a key-sorted association list. -/
def insertSorted (e : String × List String) : Values → Values
  | [] => [e]
  | f :: rest =>
    if listStrLt e.1.data f.1.data then e :: f :: rest
    else f :: insertSorted e rest

/-- Sort entries by key (Go sorts the map's keys before encoding). -/
def sortByKey : Values → Values
  | [] => []
  | e :: rest => insertSorted e (sortByKey rest)

/-- Encode values back into a query string (`Values.Encode`): keys in
sorted order, each value as `escape(k)=escape(v)`, joined by `&`. -/
def encodeQuery (v : Values) : String :=
  ⟨intercalateList '&'
    (((sortByKey v).map
      (fun e => e.2.map
        (fun val => (queryEscape e.1).data ++ '=' :: (queryEscape val).data))).flatten)⟩

/-!
JSON model, following encoding/json as used by `part_000`:
`json.Unmarshal` into `map[string]interface\x7b\x7d` succeeds exactly when
the input is one JSON value that is an object, possibly surrounded by
whitespace; `json.Unmarshal` into `map[string]string` additionally requires
every member value to be a JSON string.  Duplicate member keys overwrite,
so lookups take the last occurrence.
-/

/-- JSON values (numbers keep their raw spelling; no claim inspects them). -/
inductive JVal where
  | null
  | jbool (b : Bool)
  | num (raw : List Char)
  | str (s : String)
  | arr (xs : List JVal)
  | obj (fields : List (String × JVal))

/-- Skip JSON whitespace (space, tab, newline, carriage return). -/
def skipJsonWs : List Char → List Char
  | c :: rest =>
    if c = ' ' || c = '\t' || c = '\n' || c = '\r' then skipJsonWs rest
    else c :: rest
  | [] => []

/-- Parse the remainder of a JSON string literal after the opening quote,
handling the standard escapes; control characters below 0x20 are
rejected, as encoding/json does. -/
def parseStringRest : List Char → Option (String × List Char)
  | [] => none
  | '"' :: rest => some ("", rest)
  | '\\' :: e :: rest =>
    (match e with
     | '"' => (parseStringRest rest).map (fun p => (⟨'"' :: p.1.data⟩, p.2))
     | '\\' => (parseStringRest rest).map (fun p => (⟨'\\' :: p.1.data⟩, p.2))
     | '/' => (parseStringRest rest).map (fun p => (⟨'/' :: p.1.data⟩, p.2))
     | 'b' => (parseStringRest rest).map (fun p => (⟨Char.ofNat 8 :: p.1.data⟩, p.2))
     | 'f' => (parseStringRest rest).map (fun p => (⟨Char.ofNat 12 :: p.1.data⟩, p.2))
     | 'n' => (parseStringRest rest).map (fun p => (⟨'\n' :: p.1.data⟩, p.2))
     | 'r' => (parseStringRest rest).map (fun p => (⟨'\r' :: p.1.data⟩, p.2))
     | 't' => (parseStringRest rest).map (fun p => (⟨'\t' :: p.1.data⟩, p.2))
     | 'u' =>
       match rest with
       | a :: b :: c :: d :: rest' =>
         if isHexChar a && isHexChar b && isHexChar c && isHexChar d then
           (parseStringRest rest').map (fun p =>
             (⟨Char.ofNat (4096 * hexCharVal a + 256 * hexCharVal b
                 + 16 * hexCharVal c + hexCharVal d) :: p.1.data⟩, p.2))
         else none
       | _ => none
     | _ => none)
  | c :: rest =>
    if c.toNat < 32 then none
    else (parseStringRest rest).map (fun p => (⟨c :: p.1.data⟩, p.2))

/-- Consume a run of ASCII decimal digits, returning them and the rest. -/
def takeDigits : List Char → List Char × List Char
  | [] => ([], [])
  | c :: rest =>
    if 48 ≤ c.toNat && c.toNat ≤ 57 then
      let p := takeDigits rest
      (c :: p.1, p.2)
    else ([], c :: rest)

/-- Parse a JSON number per the RFC grammar, returning its raw spelling. -/
def parseNum (l : List Char) : Option (JVal × List Char) :=
  let (neg, l1) := match l with
    | '-' :: r => (['-'], r)
    | _ => (([] : List Char), l)
  match l1 with
  | c :: rest =>
    if c = '0' then
      let (frac, l2) := parseNumFracExp rest
      (frac.map (fun f => (JVal.num (neg ++ '0' :: f), l2)))
    else if 49 ≤ c.toNat && c.toNat ≤ 57 then
      let p := takeDigits rest
      let (frac, l2) := parseNumFracExp p.2
      (frac.map (fun f => (JVal.num (neg ++ c :: p.1 ++ f), l2)))
    else none
  | [] => none
where
  /-- Parse the optional fraction and exponent parts. -/
  parseNumFracExp (l : List Char) : Option (List Char) × List Char :=
    let (fpart, l1) : Option (List Char) × List Char := match l with
      | '.' :: r =>
        let p := takeDigits r
        if p.1 = [] then (none, l) else (some ('.' :: p.1), p.2)
      | _ => (some [], l)
    match fpart with
    | none => (none, l)
    | some f =>
      match l1 with
      | e :: r =>
        if e = 'e' || e = 'E' then
          let (sgn, r1) : List Char × List Char := match r with
            | '+' :: r' => (['+'], r')
            | '-' :: r' => (['-'], r')
            | _ => ([], r)
          let p := takeDigits r1
          if p.1 = [] then (none, l1) else (some (f ++ e :: sgn ++ p.1), p.2)
        else (some f, l1)
      | [] => (some f, l1)

mutual

/-- Parse one JSON value; `fuel` bounds the nesting/recursion depth and is
instantiated generously at the entry point. -/
def parseVal : Nat → List Char → Option (JVal × List Char)
  | 0, _ => none
  | fuel + 1, l =>
    match skipJsonWs l with
    | 'n' :: 'u' :: 'l' :: 'l' :: rest => some (.null, rest)
    | 't' :: 'r' :: 'u' :: 'e' :: rest => some (.jbool true, rest)
    | 'f' :: 'a' :: 'l' :: 's' :: 'e' :: rest => some (.jbool false, rest)
    | '"' :: rest => (parseStringRest rest).map (fun p => (.str p.1, p.2))
    | '[' :: rest =>
      (match skipJsonWs rest with
       | ']' :: rest' => some (.arr [], rest')
       | other => (parseArrItems fuel other).map (fun p => (.arr p.1, p.2)))
    | '\x7b' :: rest =>
      (match skipJsonWs rest with
       | '\x7d' :: rest' => some (.obj [], rest')
       | other => (parseObjMembers fuel other).map (fun p => (.obj p.1, p.2)))
    | other => parseNum other

/-- Parse one or more comma-separated array items up to `]`. -/
def parseArrItems : Nat → List Char → Option (List JVal × List Char)
  | 0, _ => none
  | fuel + 1, l =>
    (parseVal fuel l).bind (fun p =>
      match skipJsonWs p.2 with
      | ',' :: rest => (parseArrItems fuel rest).map (fun q => (p.1 :: q.1, q.2))
      | ']' :: rest => some ([p.1], rest)
      | _ => none)

/-- Parse one or more comma-separated object members up to the closing
brace. -/
def parseObjMembers : Nat → List Char → Option (List (String × JVal) × List Char)
  | 0, _ => none
  | fuel + 1, l =>
    match skipJsonWs l with
    | '"' :: r =>
      (parseStringRest r).bind (fun pk =>
        match skipJsonWs pk.2 with
        | ':' :: r2 =>
          (parseVal fuel r2).bind (fun pv =>
            match skipJsonWs pv.2 with
            | ',' :: rest =>
              (parseObjMembers fuel rest).map (fun q => ((pk.1, pv.1) :: q.1, q.2))
            | '\x7d' :: rest => some ([(pk.1, pv.1)], rest)
            | _ => none)
        | _ => none)
    | _ => none

end

/-- Model of `json.Unmarshal(data, &m)` for `m : map[string]interface\x7b\x7d`:
the whole input must be one JSON value, an object, with only trailing
whitespace after it. -/
def jsonUnmarshalMap (l : List Char) : Option (List (String × JVal)) :=
  (parseVal (l.length + 8) l).bind (fun p =>
    if skipJsonWs p.2 = [] then
      match p.1 with
      | .obj fields => some fields
      | _ => none
    else none)

/-- Last-occurrence lookup in parsed object members: Go map assignment lets a
duplicate key overwrite the earlier one. -/
def objLookupLast (fields : List (String × JVal)) (k : String) : Option JVal :=
  match fields with
  | [] => none
  | e :: rest =>
    match objLookupLast rest k with
    | some v => some v
    | none => if e.1 == k then some e.2 else none

/-- Membership of a key in parsed object members (`_, hasKey := m["key"]`). -/
def objHasKey (fields : List (String × JVal)) (k : String) : Bool :=
  (objLookupLast fields k).isSome

/-- Model of `json.Unmarshal(data, &m)` for `m : map[string]string`: as
`jsonUnmarshalMap`, but every member value must be a JSON string or
`null` — a `null` member is a documented no-op, leaving the zero value,
so the key maps to the empty string; any other value type is a decode
error. -/
def decodeStringMap (s : String) : Option (List (String × String)) :=
  (jsonUnmarshalMap s.data).bind (fun fields =>
    if fields.all (fun e =>
        match e.2 with | .str _ => true | .null => true | _ => false) then
      some (fields.map (fun e =>
        (e.1, match e.2 with | .str v => v | _ => "")))
    else none)

/-- Last-occurrence lookup with Go's zero-value default for a missing key
(`m["key"]` on a `map[string]string`). -/
def mapLookupLastD (m : List (String × String)) (k : String) : String :=
  match m with
  | [] => ""
  | e :: rest =>
    match mapLookupLastD rest k, (rest.map Prod.fst).contains k with
    | v, true => v
    | _, false => if e.1 == k then e.2 else ""

/-!
Credential store and selector.  `Durable` models the external Redis list
under the fixed key together with this process's view of it: whether the
one-time connection attempt succeeded (`available`, i.e. `client != nil`)
and whether the `LLen` / `LIndex` calls made by the current operation fail.
The round-robin cursor (`currentPos` in the source, guarded by `posMutex`)
is threaded explicitly as a `Nat`.
-/

/-- State of the durable backing as one selection/initialization call
observes it. -/
structure Durable where
  available : Bool
  pool : List String
  llenErr : Bool
  lindexErr : Bool

/-- Result of `getFallbackAPIKey`: the chosen key, the cursor after the
call, and (as a ghost observable) the local `position` used to index the
fallback list, `none` when the list was empty and nothing was indexed. -/
structure FbResult where
  key : String
  cursor : Nat
  position : Option Nat

/-- Result of `redis.go`'s `GetAPIKey`: the error (always `nil` in the
source, kept so that the error surface is statable), the key, the cursor
after the call, and the ghost `position` indexed in the durable list
(`none` when selection came from the fallback path). -/
structure SelResultV1 where
  errMsg : Option String
  key : String
  cursor : Nat
  position : Option Nat

/-- Result of `part_000`'s `GetAPIKey`, which additionally returns the
`proxy` field of the decoded record. -/
structure SelResultV2 where
  errMsg : Option String
  key : String
  proxy : String
  cursor : Nat
  position : Option Nat

/-- Model of `cleanAPIKeyString`: `os.ExpandEnv` applied to the configured
string, with the process environment abstracted as the expansion function
`ex` (the identity when the string holds no dollar reference). -/
def cleanAPIKeyString (ex : String → String) (keyStr : String) : String :=
  ex keyStr

/-- Model of `splitAndTrim`: split on the separator, trim whitespace from
each part, and drop empty parts. -/
def splitAndTrim (s : String) (sep : Char) : List String :=
  ((splitListOn sep s.data).map trimList).filterMap
    (fun part => if part = [] then none else some ⟨part⟩)

/-- Model of `splitAPIKeys`: split on commas and filter out empty strings
(already guaranteed by `splitAndTrim`; the source filters again). -/
def splitAPIKeys (keyStr : String) : List String :=
  (splitAndTrim keyStr ',').filter (fun k => !(k == ""))

/-- Model of `getAPIKeysFromEnv`: read the `API_KEY` configuration string
(passed in as `apiKeyEnv`), expand, and split. -/
def getAPIKeysFromEnv (ex : String → String) (apiKeyEnv : String) : List String :=
  if apiKeyEnv == "" then []
  else splitAPIKeys (cleanAPIKeyString ex apiKeyEnv)

/-- Model of `getFallbackAPIKey` (identical in both redis source files):
round-robin over the environment-derived list, reading `position :=
currentPos % count` before advancing `currentPos := (currentPos + 1) %
count`; empty list yields the empty key with the cursor untouched. -/
def getFallbackAPIKey (ex : String → String) (apiKeyEnv : String)
    (currentPos : Nat) : FbResult :=
  let keys := getAPIKeysFromEnv ex apiKeyEnv
  let count := keys.length
  if count = 0 then ⟨"", currentPos, none⟩
  else
    let position := currentPos % count
    ⟨keys.getD position "", (currentPos + 1) % count, some position⟩

namespace RedisGo

/-- Model of `InitializeAPIKeys` in `src/util/redis/redis.go`: skip when the
backing is unavailable or already populated (or `LLen` fails, which returns
the error); otherwise append every environment key to the list.  Returns
the Go error and the new stored list. -/
def InitializeAPIKeys (d : Durable) (ex : String → String)
    (apiKeyEnv : String) : Option String × List String :=
  if !d.available then (none, d.pool)
  else if d.llenErr then (some "llen error", d.pool)
  else if d.pool.length > 0 then (none, d.pool)
  else
    let apiKeys := getAPIKeysFromEnv ex apiKeyEnv
    if apiKeys.length = 0 then (none, d.pool)
    else (none, d.pool ++ apiKeys)

/-- Model of `GetAPIKey` in `src/util/redis/redis.go`: fall back to the
environment list when the backing is unavailable, `LLen` fails, or the list
is empty; otherwise advance the cursor (`currentPos := (currentPos + 1) %
count`), and return the key at that position, falling back (from the
already-advanced cursor) if `LIndex` fails.  Every path returns a `nil`
error. -/
def GetAPIKey (d : Durable) (ex : String → String) (apiKeyEnv : String)
    (currentPos : Nat) : SelResultV1 :=
  if !d.available then
    let fb := getFallbackAPIKey ex apiKeyEnv currentPos
    ⟨none, fb.key, fb.cursor, none⟩
  else if d.llenErr then
    let fb := getFallbackAPIKey ex apiKeyEnv currentPos
    ⟨none, fb.key, fb.cursor, none⟩
  else if d.pool.length = 0 then
    let fb := getFallbackAPIKey ex apiKeyEnv currentPos
    ⟨none, fb.key, fb.cursor, none⟩
  else
    let count := d.pool.length
    let newPos := (currentPos + 1) % count
    if d.lindexErr then
      let fb := getFallbackAPIKey ex apiKeyEnv newPos
      ⟨none, fb.key, fb.cursor, none⟩
    else ⟨none, d.pool.getD newPos "", newPos, some newPos⟩

end RedisGo

/-- Validity check applied by `part_000`'s `InitializeAPIKeys` to each
record: it must unmarshal into a JSON object, and the object must contain a
`key` member (of any value — presence only). -/
def validKeyRecord (rec : String) : Bool :=
  match jsonUnmarshalMap rec.data with
  | none => false
  | some fields => objHasKey fields "key"

namespace Part000

/-- Model of `InitializeAPIKeys` in `src/unnamed/part_000`: as the
`redis.go` version, but each record is pushed only if it unmarshals into a
JSON object containing a `key` member; invalid records are skipped with a
logged error. -/
def InitializeAPIKeys (d : Durable) (ex : String → String)
    (apiKeyEnv : String) : Option String × List String :=
  if !d.available then (none, d.pool)
  else if d.llenErr then (some "llen error", d.pool)
  else if d.pool.length > 0 then (none, d.pool)
  else
    let apiKeys := getAPIKeysFromEnv ex apiKeyEnv
    if apiKeys.length = 0 then (none, d.pool)
    else (none, d.pool ++ apiKeys.filter validKeyRecord)

/-- Model of `GetAPIKey` in `src/unnamed/part_000`: as the `redis.go`
version, but the fetched record is decoded as a JSON `map[string]string`;
decode failure falls back (from the already-advanced cursor), success
extracts the `key` and `proxy` fields (empty string when absent).  Every
path returns a `nil` error. -/
def GetAPIKey (d : Durable) (ex : String → String) (apiKeyEnv : String)
    (currentPos : Nat) : SelResultV2 :=
  if !d.available then
    let fb := getFallbackAPIKey ex apiKeyEnv currentPos
    ⟨none, fb.key, "", fb.cursor, none⟩
  else if d.llenErr then
    let fb := getFallbackAPIKey ex apiKeyEnv currentPos
    ⟨none, fb.key, "", fb.cursor, none⟩
  else if d.pool.length = 0 then
    let fb := getFallbackAPIKey ex apiKeyEnv currentPos
    ⟨none, fb.key, "", fb.cursor, none⟩
  else
    let count := d.pool.length
    let newPos := (currentPos + 1) % count
    if d.lindexErr then
      let fb := getFallbackAPIKey ex apiKeyEnv newPos
      ⟨none, fb.key, "", fb.cursor, none⟩
    else
      match decodeStringMap (d.pool.getD newPos "") with
      | none =>
        let fb := getFallbackAPIKey ex apiKeyEnv newPos
        ⟨none, fb.key, "", fb.cursor, none⟩
      | some keyData =>
        ⟨none, mapLookupLastD keyData "key", mapLookupLastD keyData "proxy",
         newPos, some newPos⟩

end Part000

/-- Trace of the positions chosen by consecutive `RedisGo.GetAPIKey` calls
threading the shared cursor (ghost `position`, defaulted to 0 — the proved
properties only hold on paths where it is present). -/
def durPosTrace (d : Durable) (ex : String → String) (apiKeyEnv : String)
    (c : Nat) : Nat → List Nat
  | 0 => []
  | n + 1 =>
    let r := RedisGo.GetAPIKey d ex apiKeyEnv c
    r.position.getD 0 :: durPosTrace d ex apiKeyEnv r.cursor n

/-- Trace of the positions chosen by consecutive `getFallbackAPIKey` calls
threading the shared cursor. -/
def fbPosTrace (ex : String → String) (apiKeyEnv : String)
    (c : Nat) : Nat → List Nat
  | 0 => []
  | n + 1 =>
    let r := getFallbackAPIKey ex apiKeyEnv c
    r.position.getD 0 :: fbPosTrace ex apiKeyEnv r.cursor n

/-- Repeated initialization against the evolving stored list, one
`RedisGo.InitializeAPIKeys` call per configured environment string. -/
def initIterV1 (a le li : Bool) (ex : String → String) (pool : List String) :
    List String → List String
  | [] => pool
  | e :: rest =>
    initIterV1 a le li ex (RedisGo.InitializeAPIKeys ⟨a, pool, le, li⟩ ex e).2 rest

/-- Repeated initialization with `Part000.InitializeAPIKeys`. -/
def initIterV2 (a le li : Bool) (ex : String → String) (pool : List String) :
    List String → List String
  | [] => pool
  | e :: rest =>
    initIterV2 a le li ex (Part000.InitializeAPIKeys ⟨a, pool, le, li⟩ ex e).2 rest

/-!
Forwarder (`src/handler/handler.go`) and request handler
(`src/api/index.go`).  The network call itself is outside the embedding;
`SendToGemini` is modelled up to the point where it fails to parse the
URL, rejects the resolved credential, or issues the upstream request with
the rebuilt URL.

`url.Parse` is modelled by `urlParse`: it rejects any URL containing an
ASCII control byte, splits off the fragment at the first `#`, splits the
remainder at the first `?` into the path part and the raw query, and
rejects invalid percent escapes in the path part or the fragment (query
escapes are not validated at parse time — `parse.Query()` discards their
errors pair-by-pair).  `URL.String()` reuses the original spelling of the
path and fragment whenever it is a valid encoding (which it is for every
input `urlParse` accepts), so the reassembly is path part ++ `?` ++
re-encoded query ++ the original fragment.  The authority is the fixed
base origin, assuming the inbound path starts with `/`, `?` or `#` as
every path produced by the router does.
-/

/-- Cut a character list at the first occurrence of `c`, or report that
`c` does not occur. -/
def cutListF (c : Char) : List Char → Option (List Char × List Char)
  | [] => none
  | x :: xs =>
    if x = c then some ([], xs)
    else (cutListF c xs).map (fun p => (x :: p.1, p.2))

/-- Percent escapes are well-formed: every `%` is followed by two hex
digits (`url.EscapeError` otherwise). -/
def validEscapes : List Char → Bool
  | [] => true
  | c :: rest =>
    if c = '%' then
      match rest with
      | a :: b :: rest' => isHexChar a && isHexChar b && validEscapes rest'
      | _ => false
    else validEscapes rest

/-- No ASCII control byte (below 0x20 or 0x7f), which `url.Parse` rejects
outright. -/
def noControlChars (l : List Char) : Bool :=
  l.all (fun c => !(c.toNat < 32 || c.toNat == 127))

/-- The pieces of a parsed URL that the forwarder uses: the verbatim
spelling up to the query, the raw query, and the raw fragment. -/
structure ParsedURL where
  pathPart : String
  rawQuery : String
  fragment : String
  hasFrag : Bool

/-- Model of `url.Parse` on the URLs the forwarder builds: control bytes
are rejected, the fragment is split off at the first `#`, the raw query
starts after the first `?` of the remainder, and the path part and
fragment must carry well-formed percent escapes. -/
def urlParse (fullUrl : String) : Option ParsedURL :=
  if !(noControlChars fullUrl.data) then none
  else
    match cutListF '#' fullUrl.data with
    | none =>
      let pq := cutList '?' fullUrl.data
      if validEscapes pq.1 then some ⟨⟨pq.1⟩, ⟨pq.2⟩, "", false⟩ else none
    | some (before, frag) =>
      let pq := cutList '?' before
      if validEscapes pq.1 && validEscapes frag then
        some ⟨⟨pq.1⟩, ⟨pq.2⟩, ⟨frag⟩, true⟩
      else none

/-- The fixed upstream base origin. -/
def PROXY_URL : String := "https://generativelanguage.googleapis.com"

/-- URL rewriting performed by `SendToGemini`: prepend the base origin,
parse (`none` when `url.Parse` fails), rework the query — delete any
pre-existing `key` parameter, set `key` to the resolved credential,
re-encode — and reassemble with `URL.String()`. -/
def buildUpstreamURL (inUrl apiKey : String) : Option String :=
  match urlParse (PROXY_URL ++ inUrl) with
  | none => none
  | some u =>
    let query := parseQuery u.rawQuery
    let query := values_del query "key"
    let query := values_set query "key" apiKey
    let base := u.pathPart ++ "?" ++ encodeQuery query
    some (if u.hasFrag then base ++ "#" ++ u.fragment else base)

/-- Observable outcome of `SendToGemini` up to the network boundary: the
`could not parse url` failure, the `invalid api key` rejection, or the
upstream request carrying the rebuilt URL. -/
inductive SendOutcome where
  | parseError (errMsg : String)
  | invalidKey (errMsg : String)
  | request (url : String)
deriving DecidableEq

/-- Model of `SendToGemini`'s pre-network phase: build the full URL
(failing with `could not parse url` when `url.Parse` fails), then reject
when the resolved credential is shorter than 8 bytes with the error
`invalid api key: <key>` (the raw key, unmasked), else issue the
request. -/
def sendToGemini (inUrl apiKey : String) : SendOutcome :=
  match buildUpstreamURL inUrl apiKey with
  | none => .parseError "could not parse url"
  | some fullUrl =>
    if apiKey.length < 8 then .invalidKey ("invalid api key: " ++ apiKey)
    else .request fullUrl

/-- Model of `handler.getAPIKey`: the explicit override from the request is
used verbatim when non-empty, else the selector's choice. -/
def handlerGetAPIKey (override selected : String) : String :=
  if !(override == "") then override else selected

/-- Go slice `s[a:b]` at character level. -/
def sliceStr (s : String) (a b : Nat) : String :=
  ⟨(s.data.drop a).take (b - a)⟩

/-- Model of `maskAPIKey` (identical in `handler.go` and `api/index.go`):
`<empty>` for the empty key, `<too_short>` below 8 bytes, else the first
four and last four bytes around `****`. -/
def maskAPIKey (apiKey : String) : String :=
  if apiKey == "" then "<empty>"
  else if apiKey.length < 8 then "<too_short>"
  else sliceStr apiKey 0 4 ++ "****" ++ sliceStr apiKey (apiKey.length - 4) apiKey.length

/-- The `Response` struct of `api/index.go`, serialized as
`\x7b"code":<int>,"body":<string>\x7d`. -/
structure Response where
  code : Int
  body : String

/-- The `Response` value `MainHandle` builds when `SendToGemini` returns an
error: code 500 and the error text appended to a fixed message. -/
def mainHandleError (errMsg : String) : Response :=
  ⟨500, "Internal server error. details: " ++ errMsg⟩

/-- JSON string escaping as `json.Marshal` performs it (with its default
HTML escaping of `<`, `>`, `&`). -/
def jsonEscapeChar (c : Char) : List Char :=
  if c = '"' then ['\\', '"']
  else if c = '\\' then ['\\', '\\']
  else if c = '\n' then ['\\', 'n']
  else if c = '\r' then ['\\', 'r']
  else if c = '\t' then ['\\', 't']
  else if c.toNat < 32 then
    ['\\', 'u', '0', '0', hexDigitLower (c.toNat / 16), hexDigitLower (c.toNat % 16)]
  else if c = '<' then ['\\', 'u', '0', '0', '3', 'c']
  else if c = '>' then ['\\', 'u', '0', '0', '3', 'e']
  else if c = '&' then ['\\', 'u', '0', '0', '2', '6']
  else [c]

/-- Model of `json.Marshal` on a `Response` value. -/
def marshalResponse (r : Response) : String :=
  "\x7b\"code\":" ++ intToStr r.code ++ ",\"body\":\""
    ++ ⟨(r.body.data.map jsonEscapeChar).flatten⟩ ++ "\"\x7d"

/-- Characters fmt accepts between `%` and the verb: flags, width and
precision digits (the argument-consuming `*` width is not modelled; no
stated result engages it). -/
def fprintfFmtChar (c : Char) : Bool :=
  c = '#' || c = '0' || c = '-' || c = ' ' || c = '+' || c = '.'
    || (48 ≤ c.toNat && c.toNat ≤ 57)

/-- Behaviour of `fmt.Fprintf(w, s)` with no argument list: text is
copied, `%%` collapses to one percent sign, a trailing `%` renders
`%!(NOVERB)`, and any other verb (flags and width dropped) renders the
missing-argument marker `%!v(MISSING)`.  Fuel-based so it reduces in the
kernel; each step consumes at least one input character. -/
def fprintfAux : Nat → List Char → List Char
  | 0, l => l
  | _ + 1, [] => []
  | fuel + 1, c :: rest =>
    if c = '%' then
      let flags := rest.takeWhile fprintfFmtChar
      match rest.drop flags.length with
      | [] => "%!(NOVERB)".data
      | v :: tail =>
        if v = '%' then '%' :: fprintfAux fuel tail
        else '%' :: '!' :: v :: ("(MISSING)".data ++ fprintfAux fuel tail)
    else c :: fprintfAux fuel rest

/-- Fprintf with no arguments, with ample fuel. -/
def fprintfNoArgs (l : List Char) : List Char := fprintfAux (l.length + 1) l

/-- HTTP header map (`http.Header`), as an association list with one entry
per canonical key. -/
abbrev Headers := List (String × List String)

/-- Header lookup returning all values under a key. -/
def headerLookup (h : Headers) (k : String) : Option (List String) :=
  match h with
  | [] => none
  | e :: rest => if e.1 == k then some e.2 else headerLookup rest k

/-- Model of `http.Header.Get`: first value under the key, or "". -/
def header_get (h : Headers) (k : String) : String :=
  match h with
  | [] => ""
  | e :: rest =>
    if e.1 == k then
      match e.2 with
      | [] => ""
      | v :: _ => v
    else header_get rest k

/-- Model of `http.Header.Set`: replace the key's values with one value. -/
def header_setv (h : Headers) (k v : String) : Headers :=
  match h with
  | [] => [(k, [v])]
  | e :: rest =>
    if e.1 == k then (e.1, [v]) :: rest
    else e :: header_setv rest k v

/-- Model of `http.Header.Add`: append one value under the key. -/
def header_add (h : Headers) (k v : String) : Headers :=
  match h with
  | [] => [(k, [v])]
  | e :: rest =>
    if e.1 == k then (e.1, e.2 ++ [v]) :: rest
    else e :: header_add rest k v

/-- The response from the upstream API as `handler.go` returns it. -/
structure GeminiResponse where
  body : String
  statusCode : Nat
  headers : Headers

/-- An HTTP response as written to the caller: the status line actually
sent, the headers, and the body bytes. -/
structure HttpOut where
  status : Nat
  headers : Headers
  body : String

/-- Model of `doStdResponse`: marshal the `Response`, set the trace and
source headers, and write the JSON with `fmt.Fprintf`.  `WriteHeader` is
never called, so net/http sends its default status 200 on the first body
write. -/
def doStdResponse (traceId : String) (resp : Response) : HttpOut :=
  let h := header_setv (header_setv [] "X-Trace-Id" traceId) "X-Content-From" "agent"
  ⟨200, h, ⟨fprintfNoArgs (marshalResponse resp).data⟩⟩

/-- Model of `doGeminiResponse`: set the trace and source headers, copy
every upstream header with `Add`, default the `Content-Type` to
`application/json` when `Get` returns "", then write the upstream status
code and body. -/
def doGeminiResponse (traceId : String) (resp : GeminiResponse) : HttpOut :=
  let h := header_setv (header_setv [] "X-Trace-Id" traceId) "X-Content-From" "gemini"
  let h := resp.headers.foldl
    (fun acc e => e.2.foldl (fun a v => header_add a e.1 v) acc) h
  let h := if header_get h "Content-Type" == "" then
      header_setv h "Content-Type" "application/json"
    else h
  ⟨resp.statusCode, h, resp.body⟩


/-- The header-copying fold of `doGeminiResponse`, named so the lemmas can
speak about it. -/
def copyHeaders (src : Headers) (h : Headers) : Headers :=
  src.foldl (fun acc e => e.2.foldl (fun a v => header_add a e.1 v) acc) h

/-!
Helper lemmas.  These are shared infrastructure; none of them is a claim
theorem.
-/

/-- Fprintf with no arguments copies percent-free text unchanged, at any
fuel. -/
theorem fprintfAux_of_not_mem : ∀ (fuel : Nat) (l : List Char), '%' ∉ l →
    fprintfAux fuel l = l
  | 0, _, _ => rfl
  | _ + 1, [], _ => rfl
  | fuel + 1, c :: rest, h => by
    have hc : ¬ c = '%' := fun e => h (e ▸ List.mem_cons_self c rest)
    have hr : '%' ∉ rest := fun m => h (List.mem_cons_of_mem _ m)
    unfold fprintfAux
    simp [hc, fprintfAux_of_not_mem fuel rest hr]

/-- Fprintf with no arguments copies percent-free text unchanged. -/
theorem fprintfNoArgs_of_not_mem (l : List Char) (h : '%' ∉ l) :
    fprintfNoArgs l = l :=
  fprintfAux_of_not_mem (l.length + 1) l h

/-- On the fully successful durable path, `GetAPIKey` advances the cursor by
one modulo the pool length and selects that position. -/
theorem redisGo_getAPIKey_durable (d : Durable) (ex : String → String)
    (env : String) (c : Nat) (ha : d.available = true) (hle : d.llenErr = false)
    (hli : d.lindexErr = false) (hp : 0 < d.pool.length) :
    RedisGo.GetAPIKey d ex env c =
      ⟨none, d.pool.getD ((c + 1) % d.pool.length) "", (c + 1) % d.pool.length,
        some ((c + 1) % d.pool.length)⟩ := by
  have hp' : ¬ d.pool.length = 0 := Nat.pos_iff_ne_zero.mp hp
  simp [RedisGo.GetAPIKey, ha, hle, hli, hp']

/-- On a non-empty fallback list, `getFallbackAPIKey` selects the cursor
reduced modulo the list length and advances the cursor by one modulo it. -/
theorem getFallbackAPIKey_nonempty (ex : String → String) (env : String)
    (c : Nat) (hn : 0 < (getAPIKeysFromEnv ex env).length) :
    getFallbackAPIKey ex env c =
      ⟨(getAPIKeysFromEnv ex env).getD (c % (getAPIKeysFromEnv ex env).length) "",
        (c + 1) % (getAPIKeysFromEnv ex env).length,
        some (c % (getAPIKeysFromEnv ex env).length)⟩ := by
  have hn' : ¬ (getAPIKeysFromEnv ex env).length = 0 := Nat.pos_iff_ne_zero.mp hn
  simp [getFallbackAPIKey, hn']

/-- The durable-path position trace is the rotation sequence starting one
past the initial cursor. -/
theorem durPosTrace_eq (d : Durable) (ex : String → String) (env : String)
    (ha : d.available = true) (hle : d.llenErr = false) (hli : d.lindexErr = false)
    (hp : 0 < d.pool.length) :
    ∀ (n : Nat) (c : Nat),
      durPosTrace d ex env c n
        = (List.range n).map (fun i => (c + 1 + i) % d.pool.length)
  | 0, _ => rfl
  | n + 1, c => by
    rw [durPosTrace, redisGo_getAPIKey_durable d ex env c ha hle hli hp]
    rw [durPosTrace_eq d ex env ha hle hli hp n ((c + 1) % d.pool.length)]
    rw [List.range_succ_eq_map]
    simp only [List.map_cons, List.map_map, List.cons.injEq]
    constructor
    · simp
    · apply List.map_congr_left
      intro a _
      simp only [Function.comp_apply]
      rw [Nat.add_assoc, Nat.mod_add_mod]
      congr 1
      omega

/-- The fallback-path position trace is the rotation sequence starting at
the initial cursor. -/
theorem fbPosTrace_eq (ex : String → String) (env : String)
    (hn : 0 < (getAPIKeysFromEnv ex env).length) :
    ∀ (n : Nat) (c : Nat),
      fbPosTrace ex env c n
        = (List.range n).map (fun i => (c + i) % (getAPIKeysFromEnv ex env).length)
  | 0, _ => rfl
  | n + 1, c => by
    rw [fbPosTrace, getFallbackAPIKey_nonempty ex env c hn]
    rw [fbPosTrace_eq ex env hn n ((c + 1) % (getAPIKeysFromEnv ex env).length)]
    rw [List.range_succ_eq_map]
    simp only [List.map_cons, List.map_map, List.cons.injEq]
    constructor
    · simp
    · apply List.map_congr_left
      intro a _
      simp only [Function.comp_apply]
      rw [Nat.mod_add_mod]
      congr 1
      omega

/-- One cycle of the rotation sequence visits pairwise distinct positions. -/
theorem rotSeq_nodup (a N : Nat) (_hN : 0 < N) :
    ((List.range N).map (fun i => (a + i) % N)).Nodup := by
  apply List.Nodup.map_on _ (List.nodup_range N)
  intro i hi j hj hij
  have hi' : i < N := List.mem_range.mp hi
  have hj' : j < N := List.mem_range.mp hj
  have hmod : i ≡ j [MOD N] := Nat.ModEq.add_left_cancel' a hij
  calc i = i % N := (Nat.mod_eq_of_lt hi').symm
    _ = j % N := hmod
    _ = j := Nat.mod_eq_of_lt hj'

/-- One cycle of the rotation sequence visits exactly the indices below the
pool length. -/
theorem rotSeq_mem (a N k : Nat) (hN : 0 < N) :
    k ∈ (List.range N).map (fun i => (a + i) % N) ↔ k < N := by
  constructor
  · intro hk
    obtain ⟨i, _, rfl⟩ := List.mem_map.mp hk
    exact Nat.mod_lt _ hN
  · intro hk
    apply List.mem_map.mpr
    have hs : a % N < N := Nat.mod_lt _ hN
    by_cases hcase : a % N ≤ k
    · refine ⟨k - a % N, List.mem_range.mpr (by omega), ?_⟩
      have : (a + (k - a % N)) % N = (a % N + (k - a % N)) % N := by
        rw [Nat.mod_add_mod]
      rw [this]
      have h2 : a % N + (k - a % N) = k := by omega
      rw [h2, Nat.mod_eq_of_lt hk]
    · refine ⟨k + N - a % N, List.mem_range.mpr (by omega), ?_⟩
      have : (a + (k + N - a % N)) % N = (a % N + (k + N - a % N)) % N := by
        rw [Nat.mod_add_mod]
      rw [this]
      have h2 : a % N + (k + N - a % N) = k + N := by omega
      rw [h2, Nat.add_mod_right, Nat.mod_eq_of_lt hk]

/-- Element `i ≤ N` of one-cycle-plus-one of the rotation sequence. -/
theorem rotSeq_getD (a N i : Nat) (hi : i < N + 1) :
    ((List.range (N + 1)).map (fun j => (a + j) % N)).getD i 0 = (a + i) % N := by
  rw [List.getD_eq_getElem?_getD, List.getElem?_map, List.getElem?_range hi]
  rfl

/-- Taking one full cycle from the cycle-plus-one rotation sequence. -/
theorem rotSeq_take (a N : Nat) :
    ((List.range (N + 1)).map (fun j => (a + j) % N)).take N
      = (List.range N).map (fun j => (a + j) % N) := by
  rw [← List.map_take]
  congr 1
  rw [List.range_succ]
  have h := List.take_left (List.range N) [N]
  simp only [List.length_range] at h
  exact h

/-- Adding a header value only affects lookups at its key, where it appends
one value. -/
theorem headerLookup_add (k v k2 : String) :
    ∀ h : Headers, headerLookup (header_add h k v) k2
      = if k2 = k then some (((headerLookup h k).getD []) ++ [v])
        else headerLookup h k2
  | [] => by
    by_cases hk : k2 = k
    · subst hk
      simp [header_add, headerLookup]
    · have hk' : ¬ k = k2 := fun h => hk h.symm
      simp [header_add, headerLookup, hk, hk']
  | e :: rest => by
    by_cases he : e.1 = k
    · by_cases hk : k2 = k
      · simp [header_add, headerLookup, he, hk]
      · have hk' : ¬ k = k2 := fun h => hk h.symm
        have h2 : ¬ e.1 = k2 := fun h => hk (h ▸ he ▸ rfl)
        simp [header_add, headerLookup, he, hk, hk', h2]
    · by_cases he2 : e.1 = k2
      · have hk : ¬ k2 = k := fun h => he (he2 ▸ h ▸ rfl)
        simp [header_add, headerLookup, he, he2, hk]
      · simp [header_add, headerLookup, he, he2, headerLookup_add k v k2 rest]

/-- Folding `header_add` over a value list leaves other keys unchanged. -/
theorem headerLookup_addAll_ne (k k2 : String) (hk : ¬ k2 = k) :
    ∀ (vs : List String) (h : Headers),
      headerLookup (vs.foldl (fun a v => header_add a k v) h) k2
        = headerLookup h k2
  | [], _ => rfl
  | v :: vs, h => by
    rw [List.foldl_cons, headerLookup_addAll_ne k k2 hk vs (header_add h k v),
      headerLookup_add k v k2 h, if_neg hk]

/-- Folding `header_add` over a value list appends all values under the
key (installing them fresh when the key was absent and the list is
non-empty). -/
theorem headerLookup_addAll_self (k : String) :
    ∀ (vs : List String) (h : Headers),
      headerLookup (vs.foldl (fun a v => header_add a k v) h) k
        = match headerLookup h k, vs with
          | none, [] => none
          | none, _ => some vs
          | some xs, _ => some (xs ++ vs)
  | [], h => by cases hh : headerLookup h k <;> simp [hh]
  | v :: vs, h => by
    rw [List.foldl_cons, headerLookup_addAll_self k vs (header_add h k v),
      headerLookup_add k v k h, if_pos rfl]
    cases hh : headerLookup h k <;> cases vs <;> simp [hh]

/-- Setting a header stores exactly that value at its key and affects no
other key. -/
theorem headerLookup_setv (k v k2 : String) :
    ∀ h : Headers, headerLookup (header_setv h k v) k2
      = if k2 = k then some [v] else headerLookup h k2
  | [] => by
    by_cases hk : k2 = k
    · subst hk
      simp [header_setv, headerLookup]
    · have hk' : ¬ k = k2 := fun h => hk h.symm
      simp [header_setv, headerLookup, hk, hk']
  | e :: rest => by
    by_cases he : e.1 = k
    · by_cases hk : k2 = k
      · simp [header_setv, headerLookup, he, hk]
      · have hk' : ¬ k = k2 := fun h => hk h.symm
        have h2 : ¬ e.1 = k2 := fun h => hk (h ▸ he ▸ rfl)
        simp [header_setv, headerLookup, he, hk, hk', h2]
    · by_cases he2 : e.1 = k2
      · have hk : ¬ k2 = k := fun h => he (he2 ▸ h ▸ rfl)
        simp [header_setv, headerLookup, he, he2, hk]
      · simp [header_setv, headerLookup, he, he2, headerLookup_setv k v k2 rest]

/-- Copying upstream headers does not change lookups at keys that appear in
none of them. -/
theorem headerLookup_copy_absent (k2 : String) :
    ∀ (src : Headers) (h : Headers), (∀ e ∈ src, ¬ e.1 = k2) →
      headerLookup (copyHeaders src h) k2 = headerLookup h k2
  | [], h, _ => rfl
  | e :: rest, h, hfree => by
    have he : ¬ e.1 = k2 := hfree e (List.mem_cons_self e rest)
    have hrest : ∀ f ∈ rest, ¬ f.1 = k2 := fun f hf => hfree f (List.mem_cons_of_mem _ hf)
    have hne : ¬ k2 = e.1 := fun h2 => he h2.symm
    have hstep : copyHeaders (e :: rest) h
        = copyHeaders rest (e.2.foldl (fun a v => header_add a e.1 v) h) := rfl
    rw [hstep, headerLookup_copy_absent k2 rest _ hrest,
      headerLookup_addAll_ne e.1 k2 hne e.2 h]

/-- A lookup miss means no entry carries the key. -/
theorem headerLookup_eq_none_iff (k : String) :
    ∀ h : Headers, headerLookup h k = none ↔ ∀ e ∈ h, ¬ e.1 = k
  | [] => by simp [headerLookup]
  | e :: rest => by
    by_cases he : e.1 = k
    · simp [headerLookup, he]
    · have hb : (e.1 == k) = false := by simpa using he
      simp only [headerLookup, hb, Bool.false_eq_true, if_false, List.mem_cons]
      rw [headerLookup_eq_none_iff k rest]
      constructor
      · intro hr f hf
        rcases hf with hf | hf
        · exact hf ▸ he
        · exact hr f hf
      · intro hall f hf
        exact hall f (Or.inr hf)

/-- A lookup hit names an entry of the list. -/
theorem headerLookup_eq_some_mem (k : String) (vs : List String) :
    ∀ h : Headers, headerLookup h k = some vs → (k, vs) ∈ h
  | [], hl => by simp [headerLookup] at hl
  | e :: rest, hl => by
    by_cases he : e.1 = k
    · simp only [headerLookup, he, beq_self_eq_true, if_true,
        Option.some.injEq] at hl
      subst hl
      exact he ▸ List.mem_cons_self e rest
    · have hb : (e.1 == k) = false := by simpa using he
      simp only [headerLookup, hb, Bool.false_eq_true, if_false] at hl
      exact List.mem_cons_of_mem e (headerLookup_eq_some_mem k vs rest hl)

/-- Copying upstream headers with pairwise distinct keys appends each
entry's value list to whatever the key already held. -/
theorem headerLookup_copy_mem (k : String) (vs : List String) :
    ∀ (src : Headers) (h : Headers), (src.map Prod.fst).Nodup →
      (k, vs) ∈ src →
      headerLookup (copyHeaders src h) k
        = match headerLookup h k, vs with
          | none, [] => none
          | none, _ => some vs
          | some xs, _ => some (xs ++ vs)
  | [], _, _, hmem => absurd hmem (List.not_mem_nil _)
  | e :: rest, h, hnodup, hmem => by
    simp only [List.map_cons] at hnodup
    have hhead := (List.nodup_cons.mp hnodup).1
    have htail := (List.nodup_cons.mp hnodup).2
    rcases List.mem_cons.mp hmem with heq | hmem2
    · subst heq
      have hfree : ∀ f ∈ rest, ¬ f.1 = k := by
        intro f hf hfk
        have h1 : f.1 ∈ rest.map Prod.fst := List.mem_map_of_mem Prod.fst hf
        rw [hfk] at h1
        exact hhead h1
      have hstep : copyHeaders ((k, vs) :: rest) h
          = copyHeaders rest (vs.foldl (fun a v => header_add a k v) h) := rfl
      rw [hstep, headerLookup_copy_absent k rest _ hfree,
        headerLookup_addAll_self k vs h]
    · have h1 : k ∈ rest.map Prod.fst := by
        have := List.mem_map_of_mem Prod.fst hmem2
        simpa using this
      have hke : ¬ k = e.1 := fun hk => hhead (hk ▸ h1)
      have hstep : copyHeaders (e :: rest) h
          = copyHeaders rest (e.2.foldl (fun a v => header_add a e.1 v) h) := rfl
      rw [hstep,
        headerLookup_copy_mem k vs rest _ htail hmem2,
        headerLookup_addAll_ne e.1 k hke e.2 h]

/-- Header `Get` in terms of the full lookup. -/
theorem header_get_eq_lookup (k : String) :
    ∀ h : Headers, header_get h k = ((headerLookup h k).getD []).headD ""
  | [] => rfl
  | e :: rest => by
    by_cases he : e.1 = k
    · simp only [header_get, headerLookup, he]
      simp only [beq_self_eq_true, if_true]
      cases e.2 <;> simp
    · simp [header_get, headerLookup, he, header_get_eq_lookup k rest]

/-!
Claim theorems, witnesses and counterexamples.
-/

/-- C9: for every secret string `s`, the masking function returns
`<empty>` if `s` is empty, `<too_short>` if `s` is non-empty and shorter
than 8 characters, and the first 4 characters followed by `****` and the
last 4 characters when `s` has length at least 8. -/
theorem c9_maskAPIKey_spec (s : String) :
    (s = "" → maskAPIKey s = "<empty>") ∧
    (¬ s = "" → s.length < 8 → maskAPIKey s = "<too_short>") ∧
    (8 ≤ s.length →
      maskAPIKey s
        = (⟨s.data.take 4⟩ : String) ++ "****" ++ ⟨s.data.drop (s.data.length - 4)⟩) := by
  refine ⟨?_, ?_, ?_⟩
  · intro h
    subst h
    rfl
  · intro h1 h2
    simp [maskAPIKey, h1, h2]
  · intro h
    have h1 : ¬ s = "" := by
      intro e
      rw [e] at h
      exact absurd h (by decide)
    have h2 : ¬ s.length < 8 := by omega
    have hlen : s.length = s.data.length := rfl
    have e1 : sliceStr s 0 4 = (⟨s.data.take 4⟩ : String) := by
      simp [sliceStr]
    have e2 : sliceStr s (s.length - 4) s.length
        = (⟨s.data.drop (s.data.length - 4)⟩ : String) := by
      unfold sliceStr
      rw [← hlen]
      have h4 : s.length - (s.length - 4) = 4 := by omega
      rw [h4]
      congr 1
      apply List.take_of_length_le
      rw [List.length_drop, ← hlen]
      omega
    simp only [maskAPIKey, h2, if_false]
    have hbeq : (s == "") = false := by
      simpa using h1
    rw [hbeq]
    simp only [Bool.false_eq_true, if_false]
    rw [e1, e2]

/-- Witness for C9 at concrete inputs of each of the three shapes. -/
theorem c9_maskAPIKey_spec_witness :
    maskAPIKey "" = "<empty>" ∧ maskAPIKey "abc" = "<too_short>"
      ∧ maskAPIKey "abcdefgh1234" = "abcd****1234" := by
  refine ⟨(c9_maskAPIKey_spec "").1 rfl,
    (c9_maskAPIKey_spec "abc").2.1 (by decide) (by decide), ?_⟩
  have h := (c9_maskAPIKey_spec "abcdefgh1234").2.2 (by decide)
  rw [h]
  decide

/-- C5: the selection operation never returns an error in either source
variant; with an empty durable pool and an empty fallback list it returns
the empty credential; and the Forwarder rejects the empty credential as an
invalid key on every request whose URL parses (on a parse-failing URL the
request already fails with `could not parse url`, before the credential
check). -/
theorem c5_selector_never_errors :
    (∀ (d : Durable) (ex : String → String) (env : String) (c : Nat),
      (RedisGo.GetAPIKey d ex env c).errMsg = none) ∧
    (∀ (d : Durable) (ex : String → String) (env : String) (c : Nat),
      (Part000.GetAPIKey d ex env c).errMsg = none) ∧
    (∀ (d : Durable) (ex : String → String) (env : String) (c : Nat),
      d.pool = [] → getAPIKeysFromEnv ex env = [] →
      (RedisGo.GetAPIKey d ex env c).key = ""
        ∧ (Part000.GetAPIKey d ex env c).key = "") ∧
    (∀ inUrl : String, (urlParse (PROXY_URL ++ inUrl)).isSome = true →
      sendToGemini inUrl "" = .invalidKey "invalid api key: ") := by
  refine ⟨?_, ?_, ?_, ?_⟩
  · intro d ex env c
    unfold RedisGo.GetAPIKey
    split
    · rfl
    · split
      · rfl
      · split
        · rfl
        · split <;> rfl
  · intro d ex env c
    unfold Part000.GetAPIKey
    split
    · rfl
    · split
      · rfl
      · split
        · rfl
        · split
          · rfl
          · dsimp only
            split <;> rfl
  · intro d ex env c hpool henv
    have hfb : getFallbackAPIKey ex env c = ⟨"", c, none⟩ := by
      simp [getFallbackAPIKey, henv]
    have hfb' : ∀ c' : Nat, getFallbackAPIKey ex env c' = ⟨"", c', none⟩ := by
      intro c'
      simp [getFallbackAPIKey, henv]
    constructor
    · unfold RedisGo.GetAPIKey
      split
      · rw [hfb]
      · split
        · rw [hfb]
        · split
          · rw [hfb]
          · rename_i hlen
            exact absurd (by simp [hpool]) hlen
    · unfold Part000.GetAPIKey
      split
      · rw [hfb]
      · split
        · rw [hfb]
        · split
          · rw [hfb]
          · rename_i hlen
            exact absurd (by simp [hpool]) hlen
  · intro inUrl hp
    obtain ⟨u, hu⟩ := Option.isSome_iff_exists.mp hp
    simp [sendToGemini, buildUpstreamURL, hu]

/-- Witness for C5: with the backing reachable but empty and no fallback
keys configured, both selectors return the empty key without error, and the
Forwarder rejects it. -/
theorem c5_selector_never_errors_witness :
    (RedisGo.GetAPIKey ⟨true, [], false, false⟩ id "" 0).errMsg = none ∧
    (RedisGo.GetAPIKey ⟨true, [], false, false⟩ id "" 0).key = "" ∧
    (Part000.GetAPIKey ⟨true, [], false, false⟩ id "" 0).key = "" ∧
    sendToGemini "/v1/models" "" = .invalidKey "invalid api key: " := by
  have h := c5_selector_never_errors
  exact ⟨h.1 ⟨true, [], false, false⟩ id "" 0,
    (h.2.2.1 ⟨true, [], false, false⟩ id "" 0 rfl rfl).1,
    (h.2.2.1 ⟨true, [], false, false⟩ id "" 0 rfl rfl).2,
    h.2.2.2 "/v1/models" (by decide)⟩

/-- Initialization leaves a non-empty stored pool untouched, in either
source variant. -/
theorem initialize_preserves_nonempty (a le li : Bool) (ex : String → String)
    (pool : List String) (e : String) (h : 0 < pool.length) :
    (RedisGo.InitializeAPIKeys ⟨a, pool, le, li⟩ ex e).2 = pool
      ∧ (Part000.InitializeAPIKeys ⟨a, pool, le, li⟩ ex e).2 = pool := by
  have h' : pool.length > 0 := h
  constructor
  · unfold RedisGo.InitializeAPIKeys
    cases a <;> cases le <;> simp [h']
  · unfold Part000.InitializeAPIKeys
    cases a <;> cases le <;> simp [h']

/-- C8: initialization is idempotent on an already-populated pool: any
number of initialization calls, with any fallback configurations, leaves
the stored records (hence their count) unchanged, in both source
variants. -/
theorem c8_initialize_idempotent (a le li : Bool) (ex : String → String)
    (pool : List String) (h : 0 < pool.length) :
    ∀ envs : List String,
      initIterV1 a le li ex pool envs = pool ∧ initIterV2 a le li ex pool envs = pool
  | [] => ⟨rfl, rfl⟩
  | e :: rest => by
    have hstep := initialize_preserves_nonempty a le li ex pool e h
    have hrec := c8_initialize_idempotent a le li ex pool h rest
    constructor
    · rw [initIterV1, hstep.1]
      exact hrec.1
    · rw [initIterV2, hstep.2]
      exact hrec.2

/-- Witness for C8: three repeated initializations of a one-record pool
with differing fallback configurations change nothing. -/
theorem c8_initialize_idempotent_witness :
    initIterV1 true false false id ["k1"] ["a,b", "c", ""] = ["k1"] ∧
    initIterV2 true false false id ["k1"] ["a,b", "c", ""] = ["k1"] := by
  exact c8_initialize_idempotent true false false id ["k1"] (by decide) ["a,b", "c", ""]

/-- C2 counterexample: a self-generated error response carries HTTP status
200 (the net/http default, `WriteHeader` is never called), not 500 as
claimed; the 500 appears only inside the JSON body. -/
theorem c2_counterexample :
    (doStdResponse "trace-1"
        (mainHandleError "could not send request: connection refused")).status = 200 ∧
    ¬ (doStdResponse "trace-1"
        (mainHandleError "could not send request: connection refused")).status = 500 ∧
    ¬ (doStdResponse "trace-1" (mainHandleError "invalid api key: ab%cd")).body
        = marshalResponse (mainHandleError "invalid api key: ab%cd") ∧
    (doStdResponse "trace-1" (mainHandleError "invalid api key: ab%cd")).body
      = "\x7b\"code\":500,\"body\":\"Internal server error. details: invalid api key: ab%!c(MISSING)d\"\x7d" := by
  exact ⟨rfl, by decide, by decide, by decide⟩

/-- C2 amended: for every forwarding failure the caller receives a
response carrying the trace and source headers whose body is the JSON
object `\x7b"code":500,"body":<message>\x7d` written through
`fmt.Fprintf` with the marshaled JSON as the format string — verbatim
exactly when the marshaled text contains no percent sign (percent verbs
are otherwise mangled by fmt's missing-argument rendering) — and the
response is sent under HTTP status 200, not 500: the handler never sets
the status code, so net/http's default applies. -/
theorem c2_error_response_shape (traceId errMsg : String) :
    (doStdResponse traceId (mainHandleError errMsg)).status = 200 ∧
    (mainHandleError errMsg).code = 500 ∧
    (doStdResponse traceId (mainHandleError errMsg)).headers
      = [("X-Trace-Id", [traceId]), ("X-Content-From", ["agent"])] ∧
    ('%' ∉ (marshalResponse (mainHandleError errMsg)).data →
      (doStdResponse traceId (mainHandleError errMsg)).body
        = marshalResponse (mainHandleError errMsg)) := by
  refine ⟨rfl, rfl, ?_, ?_⟩
  · show header_setv (header_setv [] "X-Trace-Id" traceId) "X-Content-From" "agent"
      = [("X-Trace-Id", [traceId]), ("X-Content-From", ["agent"])]
    simp [header_setv]
  · intro h
    show (⟨fprintfNoArgs (marshalResponse (mainHandleError errMsg)).data⟩ : String)
      = marshalResponse (mainHandleError errMsg)
    rw [fprintfNoArgs_of_not_mem _ h]

/-- Witness for C2 at a concrete upstream-unreachable failure with a
percent-free message. -/
theorem c2_error_response_shape_witness :
    (doStdResponse "t-1" (mainHandleError "could not send request: refused")).status = 200 ∧
    (doStdResponse "t-1" (mainHandleError "could not send request: refused")).body
      = "\x7b\"code\":500,\"body\":\"Internal server error. details: could not send request: refused\"\x7d" := by
  have h := c2_error_response_shape "t-1" "could not send request: refused"
  refine ⟨h.1, ?_⟩
  rw [h.2.2.2 (by decide)]
  decide

/-- C4 counterexample: with an empty durable pool, the fallback record
`\x7b"key":""\x7d` — valid JSON whose `key` field is present but empty — IS
written to the store, because initialization checks only the presence of
the `key` member, not that it is a non-empty string. -/
theorem c4_counterexample :
    (Part000.InitializeAPIKeys ⟨true, [], false, false⟩ id "\x7b\"key\":\"\"\x7d").2
      = ["\x7b\"key\":\"\"\x7d"] ∧
    decodeStringMap "\x7b\"key\":\"\"\x7d" = some [("key", "")] := by
  exact ⟨by decide, by decide⟩

/-- C4 amended: with an empty durable pool (backing reachable, count
readable), a fallback record is written iff it unmarshals into a JSON
object containing a `key` member — of any value, an empty string included;
records failing to parse or lacking the member are skipped. -/
theorem c4_init_writes_iff_parsed_with_key_member (ex : String → String)
    (env : String) (pool : List String) (hpool : pool = []) :
    (Part000.InitializeAPIKeys ⟨true, pool, false, false⟩ ex env).2
      = (getAPIKeysFromEnv ex env).filter validKeyRecord ∧
    ∀ r, r ∈ (Part000.InitializeAPIKeys ⟨true, pool, false, false⟩ ex env).2
      ↔ (r ∈ getAPIKeysFromEnv ex env ∧ validKeyRecord r = true) := by
  subst hpool
  have hmain : (Part000.InitializeAPIKeys ⟨true, [], false, false⟩ ex env).2
      = (getAPIKeysFromEnv ex env).filter validKeyRecord := by
    unfold Part000.InitializeAPIKeys
    simp only [Bool.not_true, Bool.false_eq_true, if_false, List.length_nil,
      gt_iff_lt, Nat.lt_irrefl, List.nil_append]
    split
    · rename_i hz
      rw [List.length_eq_zero] at hz
      rw [hz]
      rfl
    · rfl
  refine ⟨hmain, ?_⟩
  intro r
  rw [hmain]
  simp [List.mem_filter]

/-- Witness for C4 at a mixed record list: the well-formed record is
written, the malformed and keyless ones are skipped. -/
theorem c4_init_writes_iff_parsed_with_key_member_witness :
    (Part000.InitializeAPIKeys ⟨true, [], false, false⟩ id
        "\x7b\"key\":\"abcd1234efgh\"\x7d,notjson,\x7b\"proxy\":\"p\"\x7d").2
      = ["\x7b\"key\":\"abcd1234efgh\"\x7d"] ∧
    ("\x7b\"key\":\"abcd1234efgh\"\x7d"
      ∈ (Part000.InitializeAPIKeys ⟨true, [], false, false⟩ id
          "\x7b\"key\":\"abcd1234efgh\"\x7d,notjson,\x7b\"proxy\":\"p\"\x7d").2
      ↔ True) := by
  have h := c4_init_writes_iff_parsed_with_key_member id
    "\x7b\"key\":\"abcd1234efgh\"\x7d,notjson,\x7b\"proxy\":\"p\"\x7d" [] rfl
  constructor
  · rw [h.1]
    decide
  · rw [h.2 "\x7b\"key\":\"abcd1234efgh\"\x7d"]
    simp only [iff_true]
    exact ⟨by decide, by decide⟩

/-- C1: for every pool size `N ≥ 1` and any starting cursor, `N`
consecutive selection calls return `N` pairwise distinct positions covering
exactly the indices below `N`, and the `(N+1)`-th call repeats the first
position — on the durable branch of `GetAPIKey` and on the
`getFallbackAPIKey` branch alike. -/
theorem c1_round_robin_complete (N : Nat) (hN : 0 < N) :
    (∀ (d : Durable) (ex : String → String) (env : String) (c : Nat),
      d.available = true → d.llenErr = false → d.lindexErr = false →
      d.pool.length = N →
      ((durPosTrace d ex env c (N + 1)).take N).length = N ∧
      ((durPosTrace d ex env c (N + 1)).take N).Nodup ∧
      (∀ k, k ∈ (durPosTrace d ex env c (N + 1)).take N ↔ k < N) ∧
      (durPosTrace d ex env c (N + 1)).getD N 0
        = (durPosTrace d ex env c (N + 1)).getD 0 0) ∧
    (∀ (ex : String → String) (env : String) (c : Nat),
      (getAPIKeysFromEnv ex env).length = N →
      ((fbPosTrace ex env c (N + 1)).take N).length = N ∧
      ((fbPosTrace ex env c (N + 1)).take N).Nodup ∧
      (∀ k, k ∈ (fbPosTrace ex env c (N + 1)).take N ↔ k < N) ∧
      (fbPosTrace ex env c (N + 1)).getD N 0
        = (fbPosTrace ex env c (N + 1)).getD 0 0) := by
  constructor
  · intro d ex env c ha hle hli hp
    have hp0 : 0 < d.pool.length := hp ▸ hN
    have htr := durPosTrace_eq d ex env ha hle hli hp0 (N + 1) c
    rw [hp] at htr
    rw [htr, rotSeq_take (c + 1) N]
    refine ⟨by simp, rotSeq_nodup (c + 1) N hN, fun k => rotSeq_mem (c + 1) N k hN, ?_⟩
    rw [rotSeq_getD (c + 1) N N (by omega), rotSeq_getD (c + 1) N 0 (by omega)]
    rw [Nat.add_zero, Nat.add_mod_right]
  · intro ex env c hn
    have hn0 : 0 < (getAPIKeysFromEnv ex env).length := hn ▸ hN
    have htr := fbPosTrace_eq ex env hn0 (N + 1) c
    rw [hn] at htr
    rw [htr, rotSeq_take c N]
    refine ⟨by simp, rotSeq_nodup c N hN, fun k => rotSeq_mem c N k hN, ?_⟩
    rw [rotSeq_getD c N N (by omega), rotSeq_getD c N 0 (by omega)]
    rw [Nat.add_zero, Nat.add_mod_right]

/-- Witness for C1 at pool size 3 with starting cursor 5, on both
branches. -/
theorem c1_round_robin_complete_witness :
    ((durPosTrace ⟨true, ["a", "b", "c"], false, false⟩ id "" 5 4).take 3).Nodup ∧
    (2 ∈ (durPosTrace ⟨true, ["a", "b", "c"], false, false⟩ id "" 5 4).take 3) ∧
    (durPosTrace ⟨true, ["a", "b", "c"], false, false⟩ id "" 5 4).getD 3 0
      = (durPosTrace ⟨true, ["a", "b", "c"], false, false⟩ id "" 5 4).getD 0 0 ∧
    ((fbPosTrace id "k1,k2,k3" 5 4).take 3).Nodup ∧
    (fbPosTrace id "k1,k2,k3" 5 4).getD 3 0 = (fbPosTrace id "k1,k2,k3" 5 4).getD 0 0 := by
  have h := c1_round_robin_complete 3 (by decide)
  have hd := h.1 ⟨true, ["a", "b", "c"], false, false⟩ id "" 5 rfl rfl rfl (by decide)
  have hf := h.2 id "k1,k2,k3" 5 (by decide)
  exact ⟨hd.2.1, (hd.2.2.1 2).mpr (by decide), hd.2.2.2, hf.2.1, hf.2.2.2⟩

/-- C7 counterexample: relaying an upstream response that carries no
`Content-Type` header adds a third header `Content-Type: application/json`
beyond the trace identifier and source marker, so the relay does not add
"only the two extra headers". -/
theorem c7_counterexample :
    header_get (doGeminiResponse "tid" ⟨"hello", 201, [("X-Upstream", ["yes"])]⟩).headers
        "Content-Type" = "application/json" ∧
    (∀ e ∈ ([("X-Upstream", ["yes"])] : Headers), ¬ e.1 = "Content-Type") ∧
    ¬ "Content-Type" = "X-Trace-Id" ∧ ¬ "Content-Type" = "X-Content-From" := by
  refine ⟨by decide, by decide, by decide, by decide⟩

/-- C7 amended: for every successful upstream response the relay preserves
the status code and body verbatim, appends every upstream header's values
(after the marker value when the key is one of the two marker headers),
and sets the trace identifier and the source marker `gemini`; in addition
Content-Type is forced to `application/json` both when the upstream
supplies no Content-Type and when its first Content-Type value is the
empty string — in the latter case the upstream Content-Type values are
replaced, not preserved. -/
theorem c7_relay_preserves (traceId : String) (resp : GeminiResponse)
    (hnodup : (resp.headers.map Prod.fst).Nodup)
    (h3 : ∀ e ∈ resp.headers, ¬ e.2 = []) :
    (doGeminiResponse traceId resp).status = resp.statusCode ∧
    (doGeminiResponse traceId resp).body = resp.body ∧
    header_get (doGeminiResponse traceId resp).headers "X-Trace-Id" = traceId ∧
    header_get (doGeminiResponse traceId resp).headers "X-Content-From" = "gemini" ∧
    (∀ e ∈ resp.headers, ¬ e.1 = "Content-Type" →
      headerLookup (doGeminiResponse traceId resp).headers e.1
        = some (((headerLookup [("X-Trace-Id", [traceId]),
            ("X-Content-From", ["gemini"])] e.1).getD []) ++ e.2)) ∧
    (∀ vs, ("Content-Type", vs) ∈ resp.headers → ¬ vs.headD "" = "" →
      headerLookup (doGeminiResponse traceId resp).headers "Content-Type" = some vs) ∧
    (∀ vs, ("Content-Type", vs) ∈ resp.headers → vs.headD "" = "" →
      headerLookup (doGeminiResponse traceId resp).headers "Content-Type"
        = some ["application/json"]) ∧
    ((∀ e ∈ resp.headers, ¬ e.1 = "Content-Type") →
      headerLookup (doGeminiResponse traceId resp).headers "Content-Type"
        = some ["application/json"]) := by
  have hH0 : header_setv (header_setv [] "X-Trace-Id" traceId) "X-Content-From" "gemini"
      = [("X-Trace-Id", [traceId]), ("X-Content-From", ["gemini"])] := by
    simp [header_setv]
  have hout : (doGeminiResponse traceId resp).headers
      = (if header_get (copyHeaders resp.headers
            [("X-Trace-Id", [traceId]), ("X-Content-From", ["gemini"])]) "Content-Type" == ""
        then header_setv (copyHeaders resp.headers
            [("X-Trace-Id", [traceId]), ("X-Content-From", ["gemini"])])
          "Content-Type" "application/json"
        else copyHeaders resp.headers
            [("X-Trace-Id", [traceId]), ("X-Content-From", ["gemini"])]) := by
    unfold doGeminiResponse copyHeaders
    dsimp only
    rw [hH0]
  have hXTI : headerLookup (copyHeaders resp.headers
      [("X-Trace-Id", [traceId]), ("X-Content-From", ["gemini"])]) "X-Trace-Id"
      = some ([traceId] ++ ((headerLookup resp.headers "X-Trace-Id").getD [])) := by
    cases hl : headerLookup resp.headers "X-Trace-Id" with
    | none =>
      rw [headerLookup_copy_absent "X-Trace-Id" resp.headers _
        ((headerLookup_eq_none_iff "X-Trace-Id" resp.headers).mp hl)]
      simp [headerLookup]
    | some vs =>
      rw [headerLookup_copy_mem "X-Trace-Id" vs resp.headers _ hnodup
        (headerLookup_eq_some_mem "X-Trace-Id" vs resp.headers hl)]
      simp [headerLookup]
  have hXCF : headerLookup (copyHeaders resp.headers
      [("X-Trace-Id", [traceId]), ("X-Content-From", ["gemini"])]) "X-Content-From"
      = some (["gemini"] ++ ((headerLookup resp.headers "X-Content-From").getD [])) := by
    cases hl : headerLookup resp.headers "X-Content-From" with
    | none =>
      rw [headerLookup_copy_absent "X-Content-From" resp.headers _
        ((headerLookup_eq_none_iff "X-Content-From" resp.headers).mp hl)]
      simp [headerLookup]
    | some vs =>
      rw [headerLookup_copy_mem "X-Content-From" vs resp.headers _ hnodup
        (headerLookup_eq_some_mem "X-Content-From" vs resp.headers hl)]
      simp [headerLookup]
  refine ⟨rfl, rfl, ?_, ?_, ?_, ?_, ?_, ?_⟩
  · rw [header_get_eq_lookup, hout]
    split
    · rw [headerLookup_setv "Content-Type" "application/json" "X-Trace-Id" _,
        if_neg (by decide), hXTI]
      rfl
    · rw [hXTI]
      rfl
  · rw [header_get_eq_lookup, hout]
    split
    · rw [headerLookup_setv "Content-Type" "application/json" "X-Content-From" _,
        if_neg (by decide), hXCF]
      rfl
    · rw [hXCF]
      rfl
  · intro e he hct
    have hmem : (e.1, e.2) ∈ resp.headers := he
    have hcopy : headerLookup (copyHeaders resp.headers
        [("X-Trace-Id", [traceId]), ("X-Content-From", ["gemini"])]) e.1
        = some (((headerLookup [("X-Trace-Id", [traceId]),
            ("X-Content-From", ["gemini"])] e.1).getD []) ++ e.2) := by
      rw [headerLookup_copy_mem e.1 e.2 resp.headers _ hnodup hmem]
      cases hl : headerLookup [("X-Trace-Id", [traceId]),
          ("X-Content-From", ["gemini"])] e.1 with
      | none =>
        cases hv : e.2 with
        | nil => exact absurd hv (h3 e he)
        | cons x xs => rfl
      | some xs => rfl
    rw [hout]
    split
    · rw [headerLookup_setv "Content-Type" "application/json" e.1 _, if_neg hct, hcopy]
    · rw [hcopy]
  · intro vs hvs hv
    have hvsne : ¬ vs = [] := fun hnil => h3 ("Content-Type", vs) hvs hnil
    have hkeyfree : headerLookup
        [("X-Trace-Id", [traceId]), ("X-Content-From", ["gemini"])] "Content-Type"
          = none := by
      simp [headerLookup]
    have hcopy : headerLookup (copyHeaders resp.headers
        [("X-Trace-Id", [traceId]), ("X-Content-From", ["gemini"])]) "Content-Type"
          = some vs := by
      rw [headerLookup_copy_mem "Content-Type" vs resp.headers _ hnodup hvs, hkeyfree]
      cases hv2 : vs with
      | nil => exact absurd hv2 hvsne
      | cons x xs => rfl
    have hcond : (header_get (copyHeaders resp.headers
        [("X-Trace-Id", [traceId]), ("X-Content-From", ["gemini"])]) "Content-Type"
          == "") = false := by
      rw [header_get_eq_lookup, hcopy]
      simpa using hv
    rw [hout, hcond]
    simp only [Bool.false_eq_true, if_false]
    exact hcopy
  · intro vs hvs hv
    have hvsne : ¬ vs = [] := fun hnil => h3 ("Content-Type", vs) hvs hnil
    have hkeyfree : headerLookup
        [("X-Trace-Id", [traceId]), ("X-Content-From", ["gemini"])] "Content-Type"
          = none := by
      simp [headerLookup]
    have hcopy : headerLookup (copyHeaders resp.headers
        [("X-Trace-Id", [traceId]), ("X-Content-From", ["gemini"])]) "Content-Type"
          = some vs := by
      rw [headerLookup_copy_mem "Content-Type" vs resp.headers _ hnodup hvs, hkeyfree]
      cases hv2 : vs with
      | nil => exact absurd hv2 hvsne
      | cons x xs => rfl
    have hcond : (header_get (copyHeaders resp.headers
        [("X-Trace-Id", [traceId]), ("X-Content-From", ["gemini"])]) "Content-Type"
          == "") = true := by
      rw [header_get_eq_lookup, hcopy]
      simpa using hv
    rw [hout, hcond]
    simp only [if_true]
    rw [headerLookup_setv "Content-Type" "application/json" "Content-Type" _, if_pos rfl]
  · intro hfree
    have hkeyfree : headerLookup
        [("X-Trace-Id", [traceId]), ("X-Content-From", ["gemini"])] "Content-Type"
          = none := by
      simp [headerLookup]
    have hcopy : headerLookup (copyHeaders resp.headers
        [("X-Trace-Id", [traceId]), ("X-Content-From", ["gemini"])]) "Content-Type"
          = none := by
      rw [headerLookup_copy_absent "Content-Type" resp.headers _ hfree, hkeyfree]
    have hcond : (header_get (copyHeaders resp.headers
        [("X-Trace-Id", [traceId]), ("X-Content-From", ["gemini"])]) "Content-Type"
          == "") = true := by
      rw [header_get_eq_lookup, hcopy]
      rfl
    rw [hout, hcond]
    simp only [if_true]
    rw [headerLookup_setv "Content-Type" "application/json" "Content-Type" _, if_pos rfl]

/-- Witness for C7: a 201 response with one custom header and no
`Content-Type` relays status, body and the header, sets the two markers,
and gains the defaulted `Content-Type`; a response whose `Content-Type`
has an empty first value has it replaced by `application/json`. -/
theorem c7_relay_preserves_witness :
    (doGeminiResponse "t-9" ⟨"payload", 201, [("X-Upstream", ["yes"])]⟩).status = 201 ∧
    (doGeminiResponse "t-9" ⟨"payload", 201, [("X-Upstream", ["yes"])]⟩).body = "payload" ∧
    header_get (doGeminiResponse "t-9" ⟨"payload", 201, [("X-Upstream", ["yes"])]⟩).headers
      "X-Trace-Id" = "t-9" ∧
    headerLookup (doGeminiResponse "t-9" ⟨"payload", 201, [("X-Upstream", ["yes"])]⟩).headers
      "X-Upstream" = some ["yes"] ∧
    headerLookup (doGeminiResponse "t-9" ⟨"payload", 201, [("X-Upstream", ["yes"])]⟩).headers
      "Content-Type" = some ["application/json"] ∧
    headerLookup (doGeminiResponse "t-9" ⟨"p", 200, [("Content-Type", [""])]⟩).headers
      "Content-Type" = some ["application/json"] := by
  have h := c7_relay_preserves "t-9" ⟨"payload", 201, [("X-Upstream", ["yes"])]⟩
    (by decide) (by decide)
  have h2 := c7_relay_preserves "t-9" ⟨"p", 200, [("Content-Type", [""])]⟩
    (by decide) (by decide)
  refine ⟨h.1, h.2.1, h.2.2.1, ?_,
    h.2.2.2.2.2.2.2 (by decide),
    h2.2.2.2.2.2.2.1 [""] (by decide) (by decide)⟩
  have h5 := h.2.2.2.2.1 ("X-Upstream", ["yes"]) (by decide) (by decide)
  simpa using h5
